import Mathlib

/-!
Verification of the forward-propagation core of the project-NeuralNetwork
repository.  The repository contains two near-identical ports of the same
design: a C++ implementation (`neuralNetwork.cpp`) and a Java implementation
(`neuralNetwork.java`).  Both are shallowly embedded below over exact real
numbers: `double` arithmetic becomes `ℝ`, `std::vector<double>` becomes
`List ℝ`, and the ambient random number generator consulted at construction
time becomes an explicit family of real-valued parameters (the shapes built
by the constructors do not depend on the sampled values).

Conventions of the embedding:
* The C++ loops `for(int i=0;i<n;i++)` with an `int` bound run `max(n,0)`
  times, which is `Int.toNat n`; layer sizes are therefore carried as `ℤ`
  and clamped with `Int.toNat` exactly where the loops do.  The clamp is
  exact for non-negative sizes only: negative sizes make the real
  programs throw from their containers (`std::length_error` /
  `IllegalArgumentException`) before any neuron exists, a failure path
  these total constructors do not carry; statements about construction
  failure therefore restrict to non-negative counts.
* `neuron::neuronActivate` iterates over the weight indices and reads
  `inputs[i]`; when the input vector is at least as long as the weight
  vector this is exactly `List.zipWith (· * ·) weights inputs`, and the
  shorter-input case (out-of-bounds read, undefined behaviour in C++) is
  truncated by `zipWith` in the same way; no length validation exists in
  the C++ code.
* JSON emission is modelled as a finite map from an inductive key type that
  mirrors the 1-indexed string field names (`"layer_" + (i+1) + "_input"`
  becomes `jsonKey.layer_input (i+1)`, and so on); successive assignments
  `j[name] = value` become function updates applied in program order.
-/

noncomputable section

namespace NN

/-- The sigmoid activation function, from `neuron::sigmoid`:
`return (1.0 / (1.0 + exp(-sum)));`. -/
def sigmoid (sum : ℝ) : ℝ := 1 / (1 + Real.exp (-sum))

/-- A single neuron, from `class neuron`: a weight vector and a bias. -/
structure neuron where
  weights : List ℝ
  bias : ℝ

/-- `neuron::neuronActivate`: `sum = bias; for i in [0, weights.size()):
sum += weights[i] * inputs[i]; return sigmoid(sum)`.  The loop over weight
indices with pairwise products is `List.zipWith (· * ·)`; note the C++ code
performs no length check on `inputs`. -/
def neuronActivate (n : neuron) (inputs : List ℝ) : ℝ :=
  sigmoid (n.bias + (List.zipWith (fun w x => w * x) n.weights inputs).sum)

/-- `neuron::neuron(int numInputs)`: resizes `weights` to `numInputs` and
fills each weight and the bias from the random source.  The sampled values
arrive as the explicit parameters `ws` (i-th weight) and `b` (bias).
Faithful only for `numInputs ≥ 0`: a negative `int` passed to
`weights.resize` converts to a huge `size_t` and the real C++ throws
`std::length_error`, an error path this total embedding does not carry
(the `Int.toNat` clamp gives an empty list instead) -- theorems that
quantify over sizes and speak about construction failure therefore
restrict to non-negative counts. -/
def mkNeuron (numInputs : ℤ) (ws : ℕ → ℝ) (b : ℝ) : neuron :=
  ⟨(List.range numInputs.toNat).map ws, b⟩

/-- A layer, from `class layer`: an ordered collection of neurons. -/
structure layer where
  neurons : List neuron

/-- `layer::layer(int numNeurons, int numInputsPerNeuron)`: constructs
`numNeurons` independently initialized neurons, each with
`numInputsPerNeuron` weights.  `rw j i` is the i-th sampled weight of
neuron `j`, `rb j` its sampled bias.  Faithful only for
`numNeurons ≥ 0`: a negative `int` passed to `neurons.reserve` converts
to a huge `size_t` and the real C++ throws `std::length_error` before
the loop; the `Int.toNat` clamp gives an empty layer instead (see
`mkNeuron`). -/
def mkLayer (numNeurons numInputsPerNeuron : ℤ) (rw : ℕ → ℕ → ℝ)
    (rb : ℕ → ℝ) : layer :=
  ⟨(List.range numNeurons.toNat).map
    (fun j => mkNeuron numInputsPerNeuron (rw j) (rb j))⟩

/-- `layer::layerActivate`: applies every neuron to the same input vector,
pushing the results in neuron order. -/
def layerActivate (l : layer) (inputs : List ℝ) : List ℝ :=
  l.neurons.map (fun n => neuronActivate n inputs)

/-- A network, from `class neuralNetwork`: an ordered sequence of layers. -/
structure neuralNetwork where
  layers : List layer

/-- The C++ constructor `neuralNetwork::neuralNetwork(const vector<int>&)`:
`for i in [0, layerSizes.size()): numInputs = (i==0) ? 0 : layerSizes[i-1];
layers.emplace_back(layerSizes[i], numInputs);`.  Layer 0 is built with
`numInputs = 0`.  `rw i j k` / `rb i j` are the sampled weight `k` and bias
of neuron `j` of layer `i`. -/
def cppConstructNet (layerSizes : List ℤ) (rw : ℕ → ℕ → ℕ → ℝ)
    (rb : ℕ → ℕ → ℝ) : neuralNetwork :=
  ⟨(List.range layerSizes.length).map (fun i =>
      mkLayer (layerSizes.getD i 0)
        (if i = 0 then 0 else layerSizes.getD (i - 1) 0) (rw i) (rb i))⟩

/-- The C++ default constructor `neuralNetwork()` delegates to the explicit
constructor with `{3, 3, 3}`. -/
def cppDefaultNet (rw : ℕ → ℕ → ℕ → ℝ) (rb : ℕ → ℕ → ℝ) : neuralNetwork :=
  cppConstructNet [3, 3, 3] rw rb

/-- Helper for `neuralNetwork::forward`: the loop
`for layer in layers: currentOutputs = layer.layerActivate(currentOutputs);
allOutputs.push_back(currentOutputs);` -- one output vector per layer,
each fed the previous one. -/
def forwardAux : List layer → List ℝ → List (List ℝ)
  | [], _ => []
  | l :: ls, cur =>
      let out := layerActivate l cur
      out :: forwardAux ls out

/-- `neuralNetwork::forward`: seeds `allOutputs` with the input vector and
then runs the layer loop.  The C++ code performs no input-length check. -/
def forward (net : neuralNetwork) (inputs : List ℝ) : List (List ℝ) :=
  inputs :: forwardAux net.layers inputs

/-- The Java `Neuron.activate`: identical weighted sum and sigmoid, but it
first throws `IllegalArgumentException` when
`inputs.size() != weights.size()`. -/
def javaActivate (n : neuron) (inputs : List ℝ) : Except String ℝ :=
  if inputs.length ≠ n.weights.length then
    .error "Number of inputs must match number of weights"
  else
    .ok (neuronActivate n inputs)

/-- The Java constructor `NeuralNetworkImpl(List<Integer> layerSizes)`:
throws when `layerSizes.size() < 2`; otherwise builds layer 0 with
`numInputsPerNeuron = layerSizes.get(0)` (its own neuron count) and each
layer `i > 0` with `layerSizes.get(i-1)` inputs per neuron.  Faithful
only for non-negative entries: with a negative entry the real Java
throws `IllegalArgumentException` from `new ArrayList<>(negative
capacity)` inside `Layer`/`Neuron`, an error path the `Int.toNat` clamp
in `mkLayer`/`mkNeuron` does not carry, so the `.ok` result here speaks
for the real program only on non-negative size lists. -/
def javaConstructNet (layerSizes : List ℤ) (rw : ℕ → ℕ → ℕ → ℝ)
    (rb : ℕ → ℕ → ℝ) : Except String neuralNetwork :=
  if layerSizes.length < 2 then
    .error "Neural network must have at least 2 layers"
  else
    .ok ⟨(List.range layerSizes.length).map (fun i =>
      mkLayer (layerSizes.getD i 0)
        (if i = 0 then layerSizes.getD 0 0 else layerSizes.getD (i - 1) 0)
        (rw i) (rb i))⟩

/-- The Java `NeuralNetworkImpl.forward`: throws when the input length
differs from the first layer's first neuron's weight count, otherwise
computes the same trace as the C++ `forward`. -/
def javaForward (net : neuralNetwork) (inputs : List ℝ) :
    Except String (List (List ℝ)) :=
  if inputs.length ≠
      (((net.layers.getD 0 ⟨[]⟩).neurons.getD 0 ⟨[], 0⟩).weights).length then
    .error "Input size must match first layer input size"
  else
    .ok (forward net inputs)

/-- Logical field names of the emitted JSON object.  Mirrors the 1-indexed
string keys built in `neuralNetwork::saveAsJson`: `layer_input i` stands
for the string `"layer_" + to_string(i) + "_input"`, etc.; the map from
constructors to strings is injective, so distinct keys here are exactly
distinct JSON field names there. -/
inductive jsonKey where
  | initial_input : jsonKey
  | layer_input : ℕ → jsonKey
  | layer_output : ℕ → jsonKey
  | layer_neurons : ℕ → jsonKey
  | final_output : jsonKey
deriving DecidableEq

/-- JSON values appearing in the record: vectors of reals, and per-layer
neuron lists of (weights, bias) pairs. -/
inductive jsonVal where
  | vec : List ℝ → jsonVal
  | neuronList : List (List ℝ × ℝ) → jsonVal

/-- One assignment `j[key] = value` on the JSON object. -/
def jset (j : jsonKey → Option jsonVal) (k : jsonKey) (v : jsonVal) :
    jsonKey → Option jsonVal :=
  fun k2 => if k2 = k then some v else j k2

/-- The body of the `for (size_t i = 0; i < layers.size(); i++)` loop of
`saveAsJson`: assigns `layer_(i+1)_input`, `layer_(i+1)_output` and
`layer_(i+1)_neurons`. -/
def saveStep (net : neuralNetwork) (layerOutputs : List (List ℝ))
    (j : jsonKey → Option jsonVal) (i : ℕ) : jsonKey → Option jsonVal :=
  jset
    (jset (jset j (.layer_input (i + 1)) (.vec (layerOutputs.getD i [])))
      (.layer_output (i + 1)) (.vec (layerOutputs.getD (i + 1) [])))
    (.layer_neurons (i + 1))
    (.neuronList ((net.layers.getD i ⟨[]⟩).neurons.map
      (fun n => (n.weights, n.bias))))

/-- `neuralNetwork::saveAsJson` as the JSON object it writes:
`j["initial_input"] = layerOutputs[0]`, then the per-layer loop, then
`j["final_output"] = layerOutputs.back()`.  File I/O is outside the model;
the record itself is the observable artifact. -/
def saveAsJsonRecord (net : neuralNetwork) (layerOutputs : List (List ℝ)) :
    jsonKey → Option jsonVal :=
  jset
    ((List.range net.layers.length).foldl (saveStep net layerOutputs)
      (jset (fun _ => none) .initial_input (.vec (layerOutputs.getD 0 []))))
    .final_output (.vec (layerOutputs.getLastD []))

/-! ### General lemmas about the embedded operations -/

theorem getD_map_range {α : Type} (f : ℕ → α) (n i : ℕ) (d : α) (h : i < n) :
    ((List.range n).map f).getD i d = f i := by
  have h2 : i < ((List.range n).map f).length := by simpa using h
  rw [List.getD_eq_getElem _ _ h2]
  simp

theorem zipWith_mul_sum_eq (ws : List ℝ) :
    ∀ xs : List ℝ, xs.length = ws.length →
      (List.zipWith (fun w x => w * x) ws xs).sum =
        ∑ i ∈ Finset.range ws.length, ws.getD i 0 * xs.getD i 0 := by
  induction ws with
  | nil => intro xs _; simp
  | cons w ws ih =>
      intro xs hx
      match xs with
      | [] => simp at hx
      | y :: ys =>
          simp only [List.length_cons, Nat.succ_inj] at hx
          simp only [List.zipWith_cons_cons, List.sum_cons, List.length_cons,
            Finset.sum_range_succ', List.getD_cons_succ, List.getD_cons_zero]
          rw [ih ys hx]
          ring

theorem sigmoid_pos (x : ℝ) : 0 < sigmoid x := by
  unfold sigmoid
  positivity

theorem sigmoid_lt_one (x : ℝ) : sigmoid x < 1 := by
  unfold sigmoid
  rw [div_lt_one (by positivity)]
  linarith [Real.exp_pos (-x)]

theorem neuronActivate_empty (n : neuron) (hw : n.weights = [])
    (xs : List ℝ) : neuronActivate n xs = sigmoid n.bias := by
  simp [neuronActivate, hw]

theorem layerActivate_length (l : layer) (xs : List ℝ) :
    (layerActivate l xs).length = l.neurons.length := by
  simp [layerActivate]

theorem layerActivate_getD (l : layer) (xs : List ℝ) (j : ℕ)
    (hj : j < l.neurons.length) :
    (layerActivate l xs).getD j 0 =
      neuronActivate (l.neurons.getD j ⟨[], 0⟩) xs := by
  unfold layerActivate
  rw [List.getD_eq_getElem _ _ (by simpa using hj),
    List.getElem_map, ← List.getD_eq_getElem _ _ hj]

theorem forwardAux_length (ls : List layer) (cur : List ℝ) :
    (forwardAux ls cur).length = ls.length := by
  induction ls generalizing cur with
  | nil => rfl
  | cons l ls ih => simp [forwardAux, ih]

theorem forward_length (net : neuralNetwork) (inputs : List ℝ) :
    (forward net inputs).length = net.layers.length + 1 := by
  simp [forward, forwardAux_length]

theorem forwardAux_getD_step (ls : List layer) :
    ∀ (cur : List ℝ) (i : ℕ), i < ls.length →
      (cur :: forwardAux ls cur).getD (i + 1) [] =
        layerActivate (ls.getD i ⟨[]⟩) ((cur :: forwardAux ls cur).getD i []) := by
  induction ls with
  | nil => intro cur i hi; simp at hi
  | cons l ls ih =>
      intro cur i hi
      match i with
      | 0 => simp [forwardAux]
      | j + 1 =>
          have hj : j < ls.length := by
            simpa using Nat.lt_of_succ_lt_succ hi
          have := ih (layerActivate l cur) j hj
          simpa [forwardAux] using this

theorem forwardAux_mem_bounds (ls : List layer) :
    ∀ (cur : List ℝ) (v : List ℝ), v ∈ forwardAux ls cur →
      ∀ y ∈ v, 0 < y ∧ y < 1 := by
  induction ls with
  | nil => intro cur v hv; simp [forwardAux] at hv
  | cons l ls ih =>
      intro cur v hv y hy
      simp only [forwardAux, List.mem_cons] at hv
      rcases hv with hv | hv
      · subst hv
        simp only [layerActivate, List.mem_map] at hy
        obtain ⟨n, _, hn⟩ := hy
        subst hn
        exact ⟨sigmoid_pos _, sigmoid_lt_one _⟩
      · exact ih (layerActivate l cur) v hv y hy

theorem mkNeuron_weights_length (numInputs : ℤ) (ws : ℕ → ℝ) (b : ℝ) :
    (mkNeuron numInputs ws b).weights.length = numInputs.toNat := by
  simp [mkNeuron]

theorem mkLayer_neurons_length (nn nin : ℤ) (rw : ℕ → ℕ → ℝ) (rb : ℕ → ℝ) :
    (mkLayer nn nin rw rb).neurons.length = nn.toNat := by
  simp [mkLayer]

theorem mkLayer_mem_weights_length (nn nin : ℤ) (rw : ℕ → ℕ → ℝ)
    (rb : ℕ → ℝ) :
    ∀ n ∈ (mkLayer nn nin rw rb).neurons, n.weights.length = nin.toNat := by
  intro n hn
  simp only [mkLayer, List.mem_map, List.mem_range] at hn
  obtain ⟨j, _, hj⟩ := hn
  subst hj
  exact mkNeuron_weights_length _ _ _

theorem cppConstructNet_layers_length (sizes : List ℤ) (rw : ℕ → ℕ → ℕ → ℝ)
    (rb : ℕ → ℕ → ℝ) :
    (cppConstructNet sizes rw rb).layers.length = sizes.length := by
  simp [cppConstructNet]

theorem cppConstructNet_layers_getD (sizes : List ℤ) (rw : ℕ → ℕ → ℕ → ℝ)
    (rb : ℕ → ℕ → ℝ) (i : ℕ) (hi : i < sizes.length) :
    (cppConstructNet sizes rw rb).layers.getD i ⟨[]⟩ =
      mkLayer (sizes.getD i 0)
        (if i = 0 then 0 else sizes.getD (i - 1) 0) (rw i) (rb i) :=
  getD_map_range _ _ _ _ hi

theorem forward_getD_step (net : neuralNetwork) (inputs : List ℝ) (i : ℕ)
    (hi : i < net.layers.length) :
    (forward net inputs).getD (i + 1) [] =
      layerActivate (net.layers.getD i ⟨[]⟩)
        ((forward net inputs).getD i []) :=
  forwardAux_getD_step net.layers inputs i hi

theorem forwardAux_head_const (L : List layer) (xs ys : List ℝ)
    (h : layerActivate (L.getD 0 ⟨[]⟩) xs = layerActivate (L.getD 0 ⟨[]⟩) ys) :
    forwardAux L xs = forwardAux L ys := by
  cases L with
  | nil => rfl
  | cons l ls =>
      simp only [List.getD_cons_zero] at h
      simp only [forwardAux]
      rw [h]

theorem saveStep_ne (net : neuralNetwork) (tr : List (List ℝ))
    (j : jsonKey → Option jsonVal) (i : ℕ) (k : jsonKey)
    (h1 : k ≠ .layer_input (i + 1)) (h2 : k ≠ .layer_output (i + 1))
    (h3 : k ≠ .layer_neurons (i + 1)) :
    saveStep net tr j i k = j k := by
  simp [saveStep, jset, h1, h2, h3]

theorem foldl_saveStep_layer_input (net : neuralNetwork)
    (tr : List (List ℝ)) (n : ℕ) :
    ∀ (i : ℕ) (j : jsonKey → Option jsonVal), i < n →
      ((List.range n).foldl (saveStep net tr) j) (.layer_input (i + 1)) =
        some (.vec (tr.getD i [])) := by
  induction n with
  | zero => intro i j hi; omega
  | succ m ih =>
      intro i j hi
      rw [List.range_succ, List.foldl_append, List.foldl_cons, List.foldl_nil]
      rcases Nat.lt_succ_iff_lt_or_eq.mp hi with h | h
      · rw [saveStep_ne _ _ _ m _
          (by intro hc; injection hc with hc2; omega)
          (fun hc => jsonKey.noConfusion hc)
          (fun hc => jsonKey.noConfusion hc)]
        exact ih i _ h
      · subst h
        simp [saveStep, jset]

theorem foldl_saveStep_layer_output (net : neuralNetwork)
    (tr : List (List ℝ)) (n : ℕ) :
    ∀ (i : ℕ) (j : jsonKey → Option jsonVal), i < n →
      ((List.range n).foldl (saveStep net tr) j) (.layer_output (i + 1)) =
        some (.vec (tr.getD (i + 1) [])) := by
  induction n with
  | zero => intro i j hi; omega
  | succ m ih =>
      intro i j hi
      rw [List.range_succ, List.foldl_append, List.foldl_cons, List.foldl_nil]
      rcases Nat.lt_succ_iff_lt_or_eq.mp hi with h | h
      · rw [saveStep_ne _ _ _ m _
          (fun hc => jsonKey.noConfusion hc)
          (by intro hc; injection hc with hc2; omega)
          (fun hc => jsonKey.noConfusion hc)]
        exact ih i _ h
      · subst h
        simp [saveStep, jset]

/-! ### Claim theorems -/

/-- Claim C1: for every neuron and every input vector whose length equals
the neuron's weight count, `activate` returns
`sigmoid (bias + Σ weights[i] * inputs[i])` with
`sigmoid x = 1 / (1 + e^(-x))`; it is a pure function of the stored
weights, the bias, and the inputs.  Stated for the C++ `neuronActivate`
and the Java `activate` (which additionally checks the length). -/
theorem neuronActivate_is_sigmoid_weighted_sum (n : neuron)
    (inputs : List ℝ) (h : inputs.length = n.weights.length) :
    neuronActivate n inputs =
      sigmoid (n.bias + ∑ i ∈ Finset.range n.weights.length,
        n.weights.getD i 0 * inputs.getD i 0) ∧
    javaActivate n inputs =
      .ok (sigmoid (n.bias + ∑ i ∈ Finset.range n.weights.length,
        n.weights.getD i 0 * inputs.getD i 0)) := by
  have key : neuronActivate n inputs =
      sigmoid (n.bias + ∑ i ∈ Finset.range n.weights.length,
        n.weights.getD i 0 * inputs.getD i 0) := by
    unfold neuronActivate
    rw [zipWith_mul_sum_eq n.weights inputs h]
  refine ⟨key, ?_⟩
  rw [javaActivate, if_neg (by simp [h]), key]

/-- Witness for C1 at the neuron with weights `[1, 2]`, bias `3`, and input
`[4, 5]`. -/
theorem neuronActivate_is_sigmoid_weighted_sum_witness :
    ([4, 5] : List ℝ).length = (neuron.mk [1, 2] 3).weights.length ∧
    neuronActivate ⟨[1, 2], 3⟩ [4, 5] =
      sigmoid (3 + ∑ i ∈ Finset.range 2,
        ([1, 2] : List ℝ).getD i 0 * ([4, 5] : List ℝ).getD i 0) :=
  ⟨rfl, (neuronActivate_is_sigmoid_weighted_sum ⟨[1, 2], 3⟩ [4, 5] rfl).1⟩

/-- Claim C2: for every network built from layer sizes `[n0, ..., nk]` and
every input vector, `forward` returns a trace of length `k + 2` (layer
count plus one) whose element 0 is the input unchanged and whose element
`i + 1` is layer `i`'s output on element `i`, of length `n_i`. -/
theorem forward_trace_shape (sizes : List ℤ) (rw : ℕ → ℕ → ℕ → ℝ)
    (rb : ℕ → ℕ → ℝ) (inputs : List ℝ) :
    (forward (cppConstructNet sizes rw rb) inputs).length =
      sizes.length + 1 ∧
    (forward (cppConstructNet sizes rw rb) inputs).getD 0 [] = inputs ∧
    ∀ i, i < sizes.length →
      (forward (cppConstructNet sizes rw rb) inputs).getD (i + 1) [] =
        layerActivate ((cppConstructNet sizes rw rb).layers.getD i ⟨[]⟩)
          ((forward (cppConstructNet sizes rw rb) inputs).getD i []) ∧
      ((forward (cppConstructNet sizes rw rb) inputs).getD (i + 1) []).length =
        (sizes.getD i 0).toNat := by
  refine ⟨?_, rfl, ?_⟩
  · rw [forward_length, cppConstructNet_layers_length]
  · intro i hi
    have hlen : i < (cppConstructNet sizes rw rb).layers.length := by
      rwa [cppConstructNet_layers_length]
    have hstep := forward_getD_step (cppConstructNet sizes rw rb) inputs i hlen
    refine ⟨hstep, ?_⟩
    rw [hstep, layerActivate_length, cppConstructNet_layers_getD _ _ _ i hi,
      mkLayer_neurons_length]

/-- Witness for C2: a network of sizes `[2, 1]` on input `[5, 6]` has trace
element 1 of length 2. -/
theorem forward_trace_shape_witness :
    (0 : ℕ) < ([2, 1] : List ℤ).length ∧
    ((forward (cppConstructNet [2, 1] (fun _ _ _ => 0) (fun _ _ => 0))
      [5, 6]).getD 1 []).length = ((([2, 1] : List ℤ).getD 0 0)).toNat := by
  have h := forward_trace_shape [2, 1] (fun _ _ _ => 0) (fun _ _ => 0) [5, 6]
  exact ⟨by decide, (h.2.2 0 (by decide)).2⟩

/-- Claim C6: for every layer and input vector of the correct length,
`layerActivate` returns one output per neuron, in neuron order; its length
equals the neuron count independently of the input's content. -/
theorem layerActivate_output_per_neuron (l : layer) (inputs : List ℝ)
    (h : ∀ n ∈ l.neurons, n.weights.length = inputs.length) :
    (layerActivate l inputs).length = l.neurons.length ∧
    ∀ j, j < l.neurons.length →
      (layerActivate l inputs).getD j 0 =
        neuronActivate (l.neurons.getD j ⟨[], 0⟩) inputs :=
  ⟨layerActivate_length l inputs, fun j hj => layerActivate_getD l inputs j hj⟩

/-- Witness for C6 at a one-neuron layer with weights `[1]`, bias `2`, and
input `[3]`. -/
theorem layerActivate_output_per_neuron_witness :
    (∀ n ∈ (layer.mk [⟨[1], 2⟩]).neurons,
      n.weights.length = ([3] : List ℝ).length) ∧
    (layerActivate ⟨[⟨[1], 2⟩]⟩ [3]).length = (layer.mk [⟨[1], 2⟩]).neurons.length ∧
    ∀ j, j < (layer.mk [⟨[1], 2⟩]).neurons.length →
      (layerActivate ⟨[⟨[1], 2⟩]⟩ [3]).getD j 0 =
        neuronActivate ((layer.mk [⟨[1], 2⟩]).neurons.getD j ⟨[], 0⟩) [3] := by
  have h : ∀ n ∈ (layer.mk [⟨[1], 2⟩]).neurons,
      n.weights.length = ([3] : List ℝ).length := by
    intro n hn
    simp only [List.mem_singleton] at hn
    subst hn
    rfl
  exact ⟨h, layerActivate_output_per_neuron ⟨[⟨[1], 2⟩]⟩ [3] h⟩

/-- Claim C7: `sigmoid` maps every real to the open interval `(0, 1)`, and
consequently every value in every post-input vector of a forward-pass
trace lies strictly between 0 and 1. -/
theorem sigmoid_and_trace_in_open_unit_interval :
    (∀ x : ℝ, 0 < sigmoid x ∧ sigmoid x < 1) ∧
    ∀ (net : neuralNetwork) (inputs v : List ℝ),
      v ∈ (forward net inputs).drop 1 → ∀ y ∈ v, 0 < y ∧ y < 1 := by
  refine ⟨fun x => ⟨sigmoid_pos x, sigmoid_lt_one x⟩, ?_⟩
  intro net inputs v hv y hy
  have hv2 : v ∈ forwardAux net.layers inputs := by
    simpa [forward] using hv
  exact forwardAux_mem_bounds net.layers inputs v hv2 y hy

/-- Witness for C7: the single trace value of a one-layer one-neuron
network on the empty input lies in `(0, 1)`. -/
theorem sigmoid_and_trace_in_open_unit_interval_witness :
    0 < neuronActivate ⟨[], 0⟩ [] ∧ neuronActivate ⟨[], 0⟩ [] < 1 := by
  have hv : [neuronActivate ⟨[], 0⟩ []] ∈
      (forward ⟨[⟨[⟨[], 0⟩]⟩]⟩ []).drop 1 := by
    simp [forward, forwardAux, layerActivate]
  exact sigmoid_and_trace_in_open_unit_interval.2 ⟨[⟨[⟨[], 0⟩]⟩]⟩ [] _ hv _
    (List.mem_singleton.mpr rfl)

/-- Claim C9: activation and forward propagation are deterministic -- equal
neurons/networks and equal inputs give equal results.  In this embedding
`neuronActivate` and `forward` read only the immutable constructed
parameters (the C++ methods mutate no state), so determinism is
congruence. -/
theorem activation_and_forward_deterministic (n1 n2 : neuron)
    (xs ys : List ℝ) (net1 net2 : neuralNetwork)
    (hn : n1 = n2) (hx : xs = ys) (hnet : net1 = net2) :
    neuronActivate n1 xs = neuronActivate n2 ys ∧
    forward net1 xs = forward net2 ys := by
  subst hn; subst hx; subst hnet
  exact ⟨rfl, rfl⟩

/-- Witness for C9 at a concrete neuron, network, and input. -/
theorem activation_and_forward_deterministic_witness :
    neuronActivate ⟨[1], 0⟩ [2] = neuronActivate ⟨[1], 0⟩ [2] ∧
    forward ⟨[]⟩ [2] = forward ⟨[]⟩ [2] :=
  activation_and_forward_deterministic ⟨[1], 0⟩ ⟨[1], 0⟩ [2] [2] ⟨[]⟩ ⟨[]⟩
    rfl rfl rfl

/-- Claim C10: in the C++ implementation every layer-0 neuron of any
constructed network has an empty weight vector (layer 0 is built with
`numInputs = 0`), layer 0's output is `sigmoid(bias)` per neuron, and the
trace from element 1 onward is independent of the input vector's
content. -/
theorem cpp_layer0_empty_weights_input_independent (sizes : List ℤ)
    (rw : ℕ → ℕ → ℕ → ℝ) (rb : ℕ → ℕ → ℝ) :
    (∀ n ∈ ((cppConstructNet sizes rw rb).layers.getD 0 ⟨[]⟩).neurons,
      n.weights = []) ∧
    (∀ xs : List ℝ,
      layerActivate ((cppConstructNet sizes rw rb).layers.getD 0 ⟨[]⟩) xs =
        ((cppConstructNet sizes rw rb).layers.getD 0 ⟨[]⟩).neurons.map
          (fun n => sigmoid n.bias)) ∧
    ∀ xs ys : List ℝ,
      (forward (cppConstructNet sizes rw rb) xs).drop 1 =
        (forward (cppConstructNet sizes rw rb) ys).drop 1 := by
  have hw : ∀ n ∈ ((cppConstructNet sizes rw rb).layers.getD 0 ⟨[]⟩).neurons,
      n.weights = [] := by
    cases sizes with
    | nil =>
        intro n hn
        simp [cppConstructNet] at hn
    | cons s rest =>
        rw [cppConstructNet_layers_getD _ _ _ 0 (by simp)]
        intro n hn
        have hlen := mkLayer_mem_weights_length _ _ _ _ n hn
        simp only [if_pos rfl, Int.toNat_zero] at hlen
        exact List.length_eq_zero.mp hlen
  have hact : ∀ xs : List ℝ,
      layerActivate ((cppConstructNet sizes rw rb).layers.getD 0 ⟨[]⟩) xs =
        ((cppConstructNet sizes rw rb).layers.getD 0 ⟨[]⟩).neurons.map
          (fun n => sigmoid n.bias) := by
    intro xs
    unfold layerActivate
    exact List.map_congr_left (fun n hn => neuronActivate_empty n (hw n hn) xs)
  refine ⟨hw, hact, ?_⟩
  intro xs ys
  show forwardAux (cppConstructNet sizes rw rb).layers xs =
    forwardAux (cppConstructNet sizes rw rb).layers ys
  exact forwardAux_head_const _ xs ys (by rw [hact xs, hact ys])

/-- Witness for C10: in the default-architecture network `[3, 3, 3]` a
layer-0 neuron has no weights, and the post-input trace is the same for
inputs `[1, 2, 3]` and `[4, 5, 6]`. -/
theorem cpp_layer0_empty_weights_input_independent_witness :
    (mkNeuron 0 (fun _ => (0 : ℝ)) 0 ∈
      ((cppConstructNet [3, 3, 3] (fun _ _ _ => 0)
        (fun _ _ => 0)).layers.getD 0 ⟨[]⟩).neurons) ∧
    (mkNeuron 0 (fun _ => (0 : ℝ)) 0).weights = [] ∧
    (forward (cppConstructNet [3, 3, 3] (fun _ _ _ => 0) (fun _ _ => 0))
        [1, 2, 3]).drop 1 =
      (forward (cppConstructNet [3, 3, 3] (fun _ _ _ => 0) (fun _ _ => 0))
        [4, 5, 6]).drop 1 := by
  have h := cpp_layer0_empty_weights_input_independent [3, 3, 3]
    (fun _ _ _ => 0) (fun _ _ => 0)
  have hmem : mkNeuron 0 (fun _ => (0 : ℝ)) 0 ∈
      ((cppConstructNet [3, 3, 3] (fun _ _ _ => 0)
        (fun _ _ => 0)).layers.getD 0 ⟨[]⟩).neurons := by
    rw [cppConstructNet_layers_getD _ _ _ 0 (by decide)]
    exact List.mem_map.mpr ⟨0, by simp, rfl⟩
  exact ⟨hmem, h.1 _ hmem, h.2.2 _ _⟩

/-- Claim C3 (divergence evidence): at the repository's own demo
architecture `[4, 3, 2]`, the C++ constructor builds every layer-0 neuron
with an empty weight vector (0 weights, not the claimed 4), while the
Java constructor builds layer-0 neurons with 4 weights (the layer's own
neuron count); in the C++ network the layers `i > 0` do follow the claim
(layer 1 neurons have 4 weights, layer 2 neurons have 3). -/
theorem cpp_layer0_weight_count_diverges :
    (((cppConstructNet [4, 3, 2] (fun _ _ _ => 0)
        (fun _ _ => 0)).layers.getD 0 ⟨[]⟩).neurons.getD 0
        ⟨[1], 1⟩).weights.length = 0 ∧
    ((cppConstructNet [4, 3, 2] (fun _ _ _ => 0)
        (fun _ _ => 0)).layers.getD 0 ⟨[]⟩).neurons.length = 4 ∧
    (((cppConstructNet [4, 3, 2] (fun _ _ _ => 0)
        (fun _ _ => 0)).layers.getD 1 ⟨[]⟩).neurons.getD 0
        ⟨[1], 1⟩).weights.length = 4 ∧
    (((cppConstructNet [4, 3, 2] (fun _ _ _ => 0)
        (fun _ _ => 0)).layers.getD 2 ⟨[]⟩).neurons.getD 0
        ⟨[1], 1⟩).weights.length = 3 ∧
    javaConstructNet [4, 3, 2] (fun _ _ _ => 0) (fun _ _ => 0) =
      .ok ⟨[mkLayer 4 4 (fun _ _ => 0) (fun _ => 0),
            mkLayer 3 4 (fun _ _ => 0) (fun _ => 0),
            mkLayer 2 3 (fun _ _ => 0) (fun _ => 0)]⟩ ∧
    ((mkLayer 4 4 (fun _ _ => (0 : ℝ))
        (fun _ => 0)).neurons.getD 0 ⟨[1], 1⟩).weights.length = 4 :=
  ⟨rfl, rfl, rfl, rfl, rfl, rfl⟩

/-- Claim C4 (divergence evidence): the C++ `neuronActivate` performs no
length check -- a 3-element input to a 2-weight neuron is silently
truncated and yields the same returned result as the 2-element prefix,
and the C++ `forward` returns a full trace for a wrong-length input,
while the Java `activate` does throw the dimension-mismatch error. -/
theorem cpp_no_dimension_check :
    neuronActivate ⟨[1, 1], 0⟩ [1, 1, 1] = neuronActivate ⟨[1, 1], 0⟩ [1, 1] ∧
    (forward (cppConstructNet [2, 2] (fun _ _ _ => 0) (fun _ _ => 0))
      [1, 2, 3]).length = 3 ∧
    javaActivate ⟨[1, 1], 0⟩ [1, 1, 1] =
      .error "Number of inputs must match number of weights" := by
  refine ⟨rfl, ?_, rfl⟩
  rw [forward_length, cppConstructNet_layers_length]
  rfl

/-- Claim C5 counterexample: construction with a malformed architecture
does not fail -- the C++ constructor accepts the single-layer size list
`[0]` (a non-positive neuron count), producing a network with one empty
layer, and the Java constructor accepts `[0, 0]` (two non-positive neuron
counts), returning a network rather than an error. -/
theorem construct_malformed_no_failure :
    (cppConstructNet [0] (fun _ _ _ => 0) (fun _ _ => 0)).layers.length = 1 ∧
    ((cppConstructNet [0] (fun _ _ _ => 0)
      (fun _ _ => 0)).layers.getD 0 ⟨[]⟩).neurons = [] ∧
    javaConstructNet [0, 0] (fun _ _ _ => 0) (fun _ _ => 0) =
      .ok ⟨[mkLayer 0 0 (fun _ _ => 0) (fun _ => 0),
            mkLayer 0 0 (fun _ _ => 0) (fun _ => 0)]⟩ :=
  ⟨rfl, rfl, rfl⟩

/-- Claim C5 amended: for architectures with non-negative neuron counts
the claimed validation does not happen -- the C++ constructor never
fails (the empty sequence, a single layer, and zero counts all
construct, each entry yielding a layer with that many neurons, a zero
count an empty layer), and the Java constructor fails exactly when fewer
than two layers are specified, accepting zero counts.  Negative counts
are outside this statement: there the real programs abort with a
container capacity error (`std::length_error` from `reserve`/`resize`,
`IllegalArgumentException` from `new ArrayList<>(negative)`), which is
not the claimed architecture validation and is outside this embedding's
domain (see `mkNeuron`/`mkLayer`). -/
theorem construct_validation_behavior (sizes : List ℤ)
    (rw : ℕ → ℕ → ℕ → ℝ) (rb : ℕ → ℕ → ℝ) (hpos : ∀ s ∈ sizes, 0 ≤ s) :
    (cppConstructNet sizes rw rb).layers.length = sizes.length ∧
    (∀ i, i < sizes.length →
      ((cppConstructNet sizes rw rb).layers.getD i ⟨[]⟩).neurons.length =
        (sizes.getD i 0).toNat) ∧
    ((∃ net, javaConstructNet sizes rw rb = .ok net) ↔ 2 ≤ sizes.length) := by
  refine ⟨cppConstructNet_layers_length sizes rw rb, ?_, ?_⟩
  · intro i hi
    rw [cppConstructNet_layers_getD _ _ _ i hi, mkLayer_neurons_length]
  · unfold javaConstructNet
    by_cases h : sizes.length < 2
    · simp only [if_pos h]
      constructor
      · rintro ⟨net, hnet⟩
        cases hnet
      · intro h2
        omega
    · simp only [if_neg h]
      exact ⟨fun _ => by omega, fun _ => ⟨_, rfl⟩⟩

/-- Witness for the amended C5 at the size list `[0, 0]` and index 0. -/
theorem construct_validation_behavior_witness :
    (∀ s ∈ ([0, 0] : List ℤ), 0 ≤ s) ∧
    (0 : ℕ) < ([0, 0] : List ℤ).length ∧
    ((cppConstructNet [0, 0] (fun _ _ _ => 0)
      (fun _ _ => 0)).layers.getD 0 ⟨[]⟩).neurons.length =
        ((([0, 0] : List ℤ).getD 0 0)).toNat ∧
    ((∃ net, javaConstructNet [0, 0] (fun _ _ _ => 0) (fun _ _ => 0) =
      .ok net) ↔ 2 ≤ ([0, 0] : List ℤ).length) := by
  have hpos : ∀ s ∈ ([0, 0] : List ℤ), 0 ≤ s := by decide
  have h := construct_validation_behavior [0, 0]
    (fun _ _ _ => 0) (fun _ _ => 0) hpos
  exact ⟨hpos, by decide, h.2.1 0 (by decide), h.2.2⟩

/-- Claim C8: for every trace passed to the serializer (a forward-pass
trace has length layer count + 1), the emitted record's `final_output`
field equals the last element of the in-memory trace, and for each layer
`i` (1-indexed, `1 ≤ i ≤ layer count`) the `layer_i_input` field equals
trace element `i - 1` and the `layer_i_output` field equals trace element
`i`. -/
theorem saveAsJson_trace_fields (net : neuralNetwork)
    (tr : List (List ℝ)) (h : tr ≠ []) :
    saveAsJsonRecord net tr .final_output = some (.vec (tr.getLast h)) ∧
    ∀ i, 1 ≤ i → i ≤ net.layers.length →
      saveAsJsonRecord net tr (.layer_input i) =
        some (.vec (tr.getD (i - 1) [])) ∧
      saveAsJsonRecord net tr (.layer_output i) =
        some (.vec (tr.getD i [])) := by
  constructor
  · unfold saveAsJsonRecord jset
    rw [if_pos rfl]
    cases tr with
    | nil => exact absurd rfl h
    | cons a as => rw [List.getLast_eq_getLastD, List.getLastD_cons]
  · intro i h1 hi
    have hlt : i - 1 < net.layers.length := by omega
    have e1 : i - 1 + 1 = i := by omega
    constructor
    · unfold saveAsJsonRecord
      simp only [jset]
      rw [if_neg (fun hc => jsonKey.noConfusion hc)]
      have hfold := foldl_saveStep_layer_input net tr net.layers.length
        (i - 1) (jset (fun _ => none) .initial_input (.vec (tr.getD 0 []))) hlt
      rw [e1] at hfold
      exact hfold
    · unfold saveAsJsonRecord
      simp only [jset]
      rw [if_neg (fun hc => jsonKey.noConfusion hc)]
      have hfold := foldl_saveStep_layer_output net tr net.layers.length
        (i - 1) (jset (fun _ => none) .initial_input (.vec (tr.getD 0 []))) hlt
      rw [e1] at hfold
      exact hfold

/-- Witness for C8 at a one-layer network and the trace `[[1], [2]]`. -/
theorem saveAsJson_trace_fields_witness :
    saveAsJsonRecord ⟨[⟨[]⟩]⟩ [[1], [2]] .final_output = some (.vec [2]) ∧
    saveAsJsonRecord ⟨[⟨[]⟩]⟩ [[1], [2]] (.layer_input 1) =
      some (.vec [1]) ∧
    saveAsJsonRecord ⟨[⟨[]⟩]⟩ [[1], [2]] (.layer_output 1) =
      some (.vec [2]) := by
  have h := saveAsJson_trace_fields ⟨[⟨[]⟩]⟩ [[1], [2]] (by simp)
  have h2 := h.2 1 le_rfl le_rfl
  exact ⟨h.1, h2.1, h2.2⟩

end NN

end
